import Mathlib

/-!
# Verification of the toki photo-library manager

A shallow embedding of the core logic of `src/toki/main.py` and
`src/toki/utils.py`, together with proofs about it.

Python strings are modelled as Lean `String` (a wrapper around `List Char`),
filesystem paths as a directory component list plus a file name, and each
I/O interaction of a worker (reading a file for hashing, reading metadata,
checking target-name existence, stat-ing, moving/copying) is supplied
through an explicit environment record.  Exceptions are modelled with
`Except`/`Option`; code that catches all exceptions is embedded as a total
function.
-/

namespace Toki

/-! ## Small string helpers (models of the Python primitives used) -/

/-- Model of Python `s[:n]` on a string: the first `n` characters. -/
def strTake (s : String) (n : Nat) : String := ⟨s.data.take n⟩

/-- Model of Python `str.lower()` (ASCII case folding, which is all the
code relies on for file extensions). -/
def strLower (s : String) : String := ⟨s.data.map Char.toLower⟩

/-- Model of Python `s.replace(" ", "_")`: the pattern is a single
character, so this is a character map. Used on EXIF camera-model values. -/
def replaceSpaces (s : String) : String :=
  ⟨s.data.map (fun c => if c = ' ' then '_' else c)⟩

/-- `(a ++ b).data` unfolds to list append. -/
theorem strData_append (a b : String) : (a ++ b).data = a.data ++ b.data := by
  cases a; cases b; rfl

/-- `p` is a prefix of `s`, stated over the character lists. -/
def strStarts (p s : String) : Prop := ∃ t, s.data = p.data ++ t

/-! ## Decimal rendering of naturals (model of Python `str(i)`) -/

/-- The decimal digit character for `d` (`d < 10`; total with a dummy
fallback that is never reached from `natDigitsAux`). -/
def digitChar : Nat → Char
  | 0 => '0' | 1 => '1' | 2 => '2' | 3 => '3' | 4 => '4'
  | 5 => '5' | 6 => '6' | 7 => '7' | 8 => '8' | 9 => '9'
  | _ => '9'

/-- Numeric value of a digit character. -/
def charVal (c : Char) : Nat := c.toNat - 48

/-- Fuelled most-significant-first decimal digits of `n`; any `fuel > n`
is sufficient. -/
def natDigitsAux : Nat → Nat → List Char
  | 0, _ => []
  | fuel+1, n =>
    if n < 10 then [digitChar n]
    else natDigitsAux fuel (n / 10) ++ [digitChar (n % 10)]

/-- Decimal digits of `n`, most significant first. -/
def natDigits (n : Nat) : List Char := natDigitsAux (n + 1) n

/-- Model of Python `str(i)` for a non-negative integer. -/
def natStr (n : Nat) : String := ⟨natDigits n⟩

/-- Value of a digit list read in base 10. -/
def digitsToNat (ds : List Char) : Nat := ds.foldl (fun a c => 10 * a + charVal c) 0

theorem charVal_digitChar {d : Nat} (h : d < 10) : charVal (digitChar d) = d := by
  interval_cases d <;> rfl

theorem isDigit_digitChar {d : Nat} (h : d < 10) : (digitChar d).isDigit = true := by
  interval_cases d <;> rfl

theorem natDigitsAux_ne_nil {fuel n : Nat} (h : 0 < fuel) : natDigitsAux fuel n ≠ [] := by
  cases fuel with
  | zero => omega
  | succ f =>
    unfold natDigitsAux
    split
    · simp
    · simp

theorem natDigits_ne_nil (n : Nat) : natDigits n ≠ [] :=
  natDigitsAux_ne_nil (by omega)

theorem isDigit_of_mem_natDigitsAux :
    ∀ (fuel n : Nat) (c : Char), c ∈ natDigitsAux fuel n → c.isDigit = true := by
  intro fuel
  induction fuel with
  | zero => intro n c hc; simp [natDigitsAux] at hc
  | succ f ih =>
    intro n c hc
    unfold natDigitsAux at hc
    split at hc
    · next h =>
      simp at hc
      subst hc
      exact isDigit_digitChar h
    · next h =>
      rcases List.mem_append.mp hc with h1 | h1
      · exact ih _ _ h1
      · simp at h1
        subst h1
        exact isDigit_digitChar (Nat.mod_lt _ (by omega))

theorem isDigit_of_mem_natDigits {n : Nat} {c : Char} (h : c ∈ natDigits n) :
    c.isDigit = true :=
  isDigit_of_mem_natDigitsAux _ _ _ h

theorem digitsToNat_natDigitsAux :
    ∀ (fuel n : Nat), n < fuel → digitsToNat (natDigitsAux fuel n) = n := by
  intro fuel
  induction fuel with
  | zero => intro n h; omega
  | succ f ih =>
    intro n h
    unfold natDigitsAux
    split
    · next h10 =>
      simp [digitsToNat, List.foldl, charVal_digitChar h10]
    · next h10 =>
      have hlt : n / 10 < f := by
        have : n / 10 < n := Nat.div_lt_self (by omega) (by omega)
        omega
      have := ih (n / 10) hlt
      simp only [digitsToNat] at this ⊢
      rw [List.foldl_append, this]
      simp [List.foldl, charVal_digitChar (Nat.mod_lt n (show 0 < 10 by omega))]
      omega

theorem digitsToNat_natDigits (n : Nat) : digitsToNat (natDigits n) = n :=
  digitsToNat_natDigitsAux _ _ (by omega)

theorem natDigits_injective : Function.Injective natDigits := by
  intro a b h
  have := digitsToNat_natDigits a
  rw [h, digitsToNat_natDigits] at this
  omega

/-- Zero-padded decimal rendering of `n` to width `w`
(model of `strftime` numeric directives such as `%Y`, `%m`, `%H`). -/
def pad (w n : Nat) : String :=
  ⟨List.replicate (w - (natDigits n).length) '0' ++ natDigits n⟩

theorem pad_data_ne_nil (w n : Nat) : (pad w n).data ≠ [] := by
  simp only [pad]
  intro h
  rcases List.append_eq_nil.mp h with ⟨-, h2⟩
  exact natDigits_ne_nil n h2

theorem isDigit_of_mem_pad {w n : Nat} {c : Char} (h : c ∈ (pad w n).data) :
    c.isDigit = true := by
  simp only [pad] at h
  rcases List.mem_append.mp h with h1 | h1
  · rw [List.eq_of_mem_replicate h1]; rfl
  · exact isDigit_of_mem_natDigits h1

/-! ## Path name components

A filesystem path is a list of directory components plus a file name.
`pathSuffix`/`pathStem` embed `pathlib.PurePath.suffix`/`.stem`: the part
of the name from/before the last dot, provided that dot is neither the
first nor the last character of the name. -/

structure Path where
  dir : List String
  name : String
deriving DecidableEq

/-- Index of the last `'.'` in a character list, if any. -/
def rfindDot : List Char → Option Nat
  | [] => none
  | c :: cs =>
    match rfindDot cs with
    | some i => some (i + 1)
    | none => if c = '.' then some 0 else none

/-- Embeds `pathlib` `suffix`: `name[i:]` for the last dot index `i` when
`0 < i < len(name) - 1`, else the empty string. -/
def pathSuffix (name : String) : String :=
  match rfindDot name.data with
  | some i => if 0 < i ∧ i < name.data.length - 1 then ⟨name.data.drop i⟩ else ""
  | none => ""

/-- Embeds `pathlib` `stem`: `name[:i]` for the last dot index `i` when
`0 < i < len(name) - 1`, else the whole name. -/
def pathStem (name : String) : String :=
  match rfindDot name.data with
  | some i => if 0 < i ∧ i < name.data.length - 1 then ⟨name.data.take i⟩ else name
  | none => name

theorem rfindDot_append_some {m : List Char} {i : Nat} (h : rfindDot m = some i) :
    ∀ l : List Char, rfindDot (l ++ m) = some (l.length + i) := by
  intro l
  induction l with
  | nil => simpa using h
  | cons c l ih =>
    show rfindDot (c :: (l ++ m)) = _
    unfold rfindDot
    rw [ih]
    simp
    omega

theorem rfindDot_append_none {m : List Char} (h : rfindDot m = none) :
    ∀ l : List Char, rfindDot (l ++ m) = rfindDot l := by
  intro l
  induction l with
  | nil => simpa using h
  | cons c l ih =>
    show rfindDot (c :: (l ++ m)) = rfindDot (c :: l)
    unfold rfindDot
    rw [ih]

theorem rfindDot_eq_none {l : List Char} (h : '.' ∉ l) : rfindDot l = none := by
  induction l with
  | nil => rfl
  | cons c cs ih =>
    simp at h
    unfold rfindDot
    rw [ih h.2]
    simp [Ne.symm h.1]

/-- `stem (core ++ ext) = core` whenever `ext` is a nonempty dot-led
extension whose tail contains no dot and `core` is nonempty. -/
theorem pathStem_append {core ext : String} {t : List Char}
    (he : ext.data = '.' :: t) (ht : t ≠ []) (hnd : '.' ∉ t) (hc : core.data ≠ []) :
    pathStem (core ++ ext) = core := by
  have hdata : (core ++ ext).data = core.data ++ '.' :: t := by
    rw [strData_append, he]
  have hdot : rfindDot ('.' :: t) = some 0 := by
    unfold rfindDot
    rw [rfindDot_eq_none hnd]
    simp
  have hfind : rfindDot (core ++ ext).data = some core.data.length := by
    rw [hdata]
    have := rfindDot_append_some hdot core.data
    simpa using this
  unfold pathStem
  rw [hfind]
  have hlen : (core ++ ext).data.length = core.data.length + 1 + t.length := by
    rw [hdata]; simp; omega
  have hcond : 0 < core.data.length ∧ core.data.length < (core ++ ext).data.length - 1 := by
    constructor
    · cases hd : core.data with
      | nil => exact absurd hd hc
      | cons a b => simp [hd]
    · rw [hlen]
      have : 0 < t.length := List.length_pos.mpr ht
      omega
  simp only [Option.some.injEq]
  rw [if_pos hcond, hdata]
  have : (core.data ++ '.' :: t).take core.data.length = core.data :=
    List.take_left core.data ('.' :: t)
  rw [this]

/-! ## DateTime and the strptime/strftime models

`DateTime` models a Python `datetime.datetime` (date and time fields
only; the code never uses finer fields). -/

structure DateTime where
  year : Nat
  month : Nat
  day : Nat
  hour : Nat
  minute : Nat
  second : Nat
deriving DecidableEq

/-- Longest digit run at the head of the list, and the remainder. -/
def spanDigits : List Char → List Char × List Char
  | [] => ([], [])
  | c :: cs =>
    if c.isDigit then
      let r := spanDigits cs
      (c :: r.1, r.2)
    else ([], c :: cs)

/-- Python regex `\s` (ASCII part, which is all that arises here). -/
def isPySpace (c : Char) : Bool :=
  c == ' ' || c == '\t' || c == '\n' || c == '\r' || c.toNat == 11 || c.toNat == 12

/-- Longest whitespace run at the head of the list, and the remainder. -/
def spanSpaces : List Char → List Char × List Char
  | [] => ([], [])
  | c :: cs =>
    if isPySpace c then
      let r := spanSpaces cs
      (c :: r.1, r.2)
    else ([], c :: cs)

/-- One numeric `strptime` field that may be one or two digits wide
(as in CPython's regexes `1[0-2]|0[1-9]|[1-9]` etc.): a two-digit run
must satisfy `valid2`, a single digit must satisfy `valid1`, and any
longer run fails because the following literal cannot match. -/
def parse2or1 (valid2 valid1 : Nat → Bool) (cs : List Char) :
    Option (Nat × List Char) :=
  match spanDigits cs with
  | ([a], rest) => let v := charVal a; if valid1 v then some (v, rest) else none
  | ([a, b], rest) =>
    let v := 10 * charVal a + charVal b
    if valid2 v then some (v, rest) else none
  | _ => none

def expectColon : List Char → Option (List Char)
  | c :: r => if c = ':' then some r else none
  | [] => none

def isLeapYear (y : Nat) : Bool :=
  y % 4 == 0 && (y % 100 != 0 || y % 400 == 0)

def daysInMonth (y m : Nat) : Nat :=
  if m = 2 then (if isLeapYear y then 29 else 28)
  else if m = 4 ∨ m = 6 ∨ m = 9 ∨ m = 11 then 30
  else 31

/-- The range validation performed by the `datetime.datetime` constructor
(`ValueError` outside these bounds, modelled as `none`). -/
def mkValidDatetime (y m d h mi s : Nat) : Option DateTime :=
  if 1 ≤ y ∧ y ≤ 9999 ∧ 1 ≤ m ∧ m ≤ 12 ∧ 1 ≤ d ∧ d ≤ daysInMonth y m ∧
      h ≤ 23 ∧ mi ≤ 59 ∧ s ≤ 59 then
    some ⟨y, m, d, h, mi, s⟩
  else none

/-- Model of `datetime.datetime.strptime(s, "%Y:%m:%d %H:%M:%S")`:
`ValueError` is modelled as `none`.  Follows CPython `_strptime`: `%Y` is
exactly four digits, `%m`/`%d` are `1[0-2]|0[1-9]|[1-9]` resp.
`3[01]|[12]\d|0[1-9]|[1-9]`, `%H` is `2[0-3]|[0-1]\d|\d`, `%M` is
`[0-5]\d|\d`, `%S` is `6[01]|[0-5]\d|\d`, a literal space matches one or
more whitespace characters, trailing unconverted data is an error, and
the resulting values are validated by the `datetime` constructor. -/
def strptimeYmdHMS (s : String) : Option DateTime :=
  let yr := spanDigits s.data
  if yr.1.length = 4 then
    (expectColon yr.2).bind fun r1 =>
    (parse2or1 (fun v => decide (1 ≤ v ∧ v ≤ 12)) (fun v => decide (1 ≤ v ∧ v ≤ 9)) r1).bind fun mr =>
    (expectColon mr.2).bind fun r3 =>
    (parse2or1 (fun v => decide (1 ≤ v ∧ v ≤ 31)) (fun v => decide (1 ≤ v ∧ v ≤ 9)) r3).bind fun dr =>
    (let sp := spanSpaces dr.2
     if sp.1.isEmpty then none else
     (parse2or1 (fun v => decide (v ≤ 23)) (fun _ => true) sp.2).bind fun hr =>
     (expectColon hr.2).bind fun r7 =>
     (parse2or1 (fun v => decide (v ≤ 59)) (fun _ => true) r7).bind fun mir =>
     (expectColon mir.2).bind fun r9 =>
     (parse2or1 (fun v => decide (v ≤ 61)) (fun _ => true) r9).bind fun sr =>
     if sr.2.isEmpty then
       mkValidDatetime (digitsToNat yr.1) mr.1 dr.1 hr.1 mir.1 sr.1
     else none)
  else none

/-- Model of `dt.strftime("%Y%m%d_%H%M%S")` (numeric directives all
zero-pad to their width). -/
def strftimeCompact (d : DateTime) : String :=
  pad 4 d.year ++ pad 2 d.month ++ pad 2 d.day ++ "_" ++
    pad 2 d.hour ++ pad 2 d.minute ++ pad 2 d.second

/-! ## Embedding of `src/toki/utils.py` -/

/-- `SUPPORTED_EXTENSIONS` from `utils.py`. -/
def SUPPORTED_EXTENSIONS : List String :=
  [".jpg", ".jpeg", ".png", ".mp4", ".mov", ".avi", ".heic"]

/-- `HASH_LENGTH` from `utils.py`. -/
def HASH_LENGTH : Nat := 8

/-- Embeds `compute_file_hash`.  The MD5 streaming is abstracted: the
argument is `some hexdigest` — the full 32-character hex digest of the
file content — when opening and reading succeed, and `none` when any
exception occurs.  The function truncates the digest (Python
`hexdigest()[:hash_length]`), and on failure returns
`"00000000"[:hash_length]`. -/
def compute_file_hash (readDigest : Option String)
    (hash_length : Nat := HASH_LENGTH) : String :=
  match readDigest with
  | some digest => strTake digest hash_length
  | none => strTake "00000000" hash_length

/-- The EXIF tags read by `get_exif_datetime`, as returned by
`img.getexif()`.  `hasOtherTags` records whether any tag outside these
three is present (so that the `if not exif` emptiness test can be
modelled). -/
structure ExifData where
  dateTimeOriginal : Option String
  dateTime : Option String
  model : Option String
  hasOtherTags : Bool
deriving DecidableEq

/-- Truthiness of the `Exif` mapping: `if not exif` succeeds exactly when
no tag at all is present. -/
def ExifData.isEmptyExif (e : ExifData) : Bool :=
  e.dateTimeOriginal.isNone && e.dateTime.isNone && e.model.isNone && !e.hasOtherTags

/-- I/O results a single metadata extraction can observe: the
`Image.open(...).getexif()` outcome (`none` models any exception while
opening or reading the image) and the hachoir video extraction outcome
(`get_video_datetime` catches every exception internally and returns an
optional datetime). -/
structure MetaEnv where
  exif : Option ExifData
  videoDt : Option DateTime
deriving DecidableEq

/-- Embeds `get_exif_datetime`: everything runs inside one
`try/except`, so a `strptime` failure on the chosen tag discards the
camera model as well.  Tag 36867 is `DateTimeOriginal`, tag 306 is
`DateTime`, tag 272 is `Model`. -/
def get_exif_datetime (exifRes : Option ExifData) : Option DateTime × String :=
  match exifRes with
  | none => (none, "Unknown")
  | some exif =>
    if exif.isEmptyExif then (none, "Unknown")
    else
      match (match exif.dateTimeOriginal with
             | some s =>
               (match strptimeYmdHMS s with
                | some d => Except.ok (some d)
                | none => Except.error ())
             | none =>
               match exif.dateTime with
               | some s =>
                 (match strptimeYmdHMS s with
                  | some d => Except.ok (some d)
                  | none => Except.error ())
               | none => Except.ok none : Except Unit (Option DateTime)) with
      | .error _ => (none, "Unknown")
      | .ok dt =>
        let camera := match exif.model with
                      | some m => replaceSpaces m
                      | none => "Unknown"
        (dt, camera)

/-- The photo-like extensions dispatched to EXIF extraction. -/
def PHOTO_EXTENSIONS : List String := [".jpg", ".jpeg", ".png", ".heic"]

/-- The video-like extensions dispatched to hachoir extraction. -/
def VIDEO_EXTENSIONS : List String := [".mp4", ".mov", ".avi"]

/-- Embeds `get_file_datetime`: dispatch on the lower-cased extension. -/
def get_file_datetime (env : MetaEnv) (name : String) : Option DateTime × String :=
  let ext := strLower (pathSuffix name)
  if PHOTO_EXTENSIONS.contains ext then get_exif_datetime env.exif
  else if VIDEO_EXTENSIONS.contains ext then (env.videoDt, "Unknown")
  else (none, "Unknown")

/-! ## Embedding of `src/toki/main.py` -/

/-- Embeds `collect_files`: of all files found by the `os.walk`
traversal (supplied as a list), keep those whose lower-cased suffix is a
supported extension. -/
def collect_files (walked : List Path) : List Path :=
  walked.filter (fun p => SUPPORTED_EXTENSIONS.contains (strLower (pathSuffix p.name)))

/-- The duplicate-suffix candidate `f"{base}_dup{i}{ext}"`. -/
def dupName (base : String) (i : Nat) (ext : String) : String :=
  base ++ "_dup" ++ natStr i ++ ext

/-- Embeds the `while new_path.exists(): ...` loop: starting at counter
`i`, return the first `_dup` candidate not present in the directory
listing.  The loop in the source is unbounded; `fuel` bounds the model,
and `none` marks exhaustion (unreachable for a finite directory given
enough fuel). -/
def resolveLoop (listing : List String) (base ext : String) :
    Nat → Nat → Option String
  | 0, _ => none
  | fuel+1, i =>
    let cand := dupName base i ext
    if listing.contains cand then resolveLoop listing base ext fuel (i + 1)
    else some cand

/-- Embeds the collision-handling block shared by both workers: if the
candidate name exists in the directory, probe `<stem>_dup1`,
`<stem>_dup2`, … until a free name is found. -/
def resolveName (listing : List String) (new_name ext : String) (fuel : Nat) :
    Option String :=
  if listing.contains new_name then
    resolveLoop listing (pathStem new_name) ext fuel 1
  else some new_name

/-- A filesystem mutation attempted by a worker. -/
inductive FsOp where
  | move (src dst : Path)
  | copy (src dst : Path)
  | mkdir (d : List String)
deriving DecidableEq

/-- Result of one worker invocation: the Python return value (`.ok msg`
for a normal return of `Optional[str]`, `.error e` when an exception
escapes the worker) together with the filesystem mutations it attempted. -/
structure WorkerRun where
  result : Except String (Option String)
  ops : List FsOp

/-- `str(path)` with `/` separators. -/
def joinSlash : List String → String
  | [] => ""
  | [s] => s
  | s :: rest => s ++ "/" ++ joinSlash rest

def pathStr (p : Path) : String := joinSlash (p.dir ++ [p.name])

/-- `target_path.relative_to(output_dir)` for a target constructed under
`output_dir`: drop the leading output components. -/
def relTo (out : List String) (p : Path) : String :=
  joinSlash (p.dir.drop out.length ++ [p.name])

/-- I/O results a `rename_file_worker` invocation can observe:
the hash digest (see `compute_file_hash`), the metadata results, the
set of file names currently existing in the file's own directory
(queried by `new_path.exists()`), and the `shutil.move` outcome. -/
structure RenameEnv where
  hashHex : Option String
  meta : MetaEnv
  listing : List String
  moveResult : Except String Unit

/-- The canonical name `f"{date_str}_{confidence}_{camera_model}_{file_hash}{ext}"`
synthesized by `rename_file_worker` before collision handling. -/
def rename_new_name (path : Path) (env : RenameEnv) : String :=
  let ext := strLower (pathSuffix path.name)
  let file_hash := compute_file_hash env.hashHex
  let dc := get_file_datetime env.meta path.name
  let conf_date :=
    match dc.1 with
    | some d => ("A", strftimeCompact d)
    | none => ("C", "UnknownDate")
  conf_date.2 ++ "_" ++ conf_date.1 ++ "_" ++ dc.2 ++ "_" ++ file_hash ++ ext

/-- The validity check `pathlib.PurePath.with_name` performs on its
argument (POSIX flavour): the new name must be nonempty, contain no
path separator, and not be `"."`; otherwise `with_name` raises
`ValueError`. -/
def validFileName (name : String) : Bool :=
  !name.data.isEmpty && !name.data.contains '/' && !(name == ".")

/-- Embeds `rename_file_worker`.  The call `path.with_name(new_name)`
is outside any `try/except`; when the synthesized name is invalid (the
EXIF camera model may contain a path separator, which survives into
`new_name`) the `ValueError` escapes the worker, modelled as `.error`.
The later `with_name` calls in the duplicate loop never raise once this
one has succeeded: their argument `f"{base}_dup{i}{ext}"` is built only
from pieces of the already-validated `new_name` plus `_dup<i>`.  The
exception message approximates CPython's `Invalid name {name!r}`
(`repr` quoting omitted). -/
def rename_file_worker (path : Path) (dry_run : Bool) (env : RenameEnv)
    (fuel : Nat) : Option WorkerRun :=
  let ext := strLower (pathSuffix path.name)
  if SUPPORTED_EXTENSIONS.contains ext then
    let new_name := rename_new_name path env
    if validFileName new_name then
      match resolveName env.listing new_name ext fuel with
      | none => none
      | some final_name =>
        if dry_run then
          some ⟨.ok (some ("Would rename: " ++ path.name ++ " → " ++ final_name)), []⟩
        else
          match env.moveResult with
          | .ok _ =>
            some ⟨.ok (some ("Renamed: " ++ path.name ++ " → " ++ final_name)),
                  [.move path ⟨path.dir, final_name⟩]⟩
          | .error e =>
            some ⟨.ok (some ("Error renaming " ++ pathStr path ++ ": " ++ e)),
                  [.move path ⟨path.dir, final_name⟩]⟩
    else some ⟨.error ("Invalid name " ++ new_name), []⟩
  else some ⟨.ok none, []⟩

/-- I/O results an `organize_file_worker` invocation can observe.
`statResult` is the outcome of `path.stat().st_mtime` converted by
`datetime.fromtimestamp` — note this call is NOT inside the worker's
`try` block.  `targetListing` is the set of file names existing in the
computed target directory (queried by `target_path.exists()`). -/
structure OrganizeEnv where
  meta : MetaEnv
  statResult : Except String DateTime
  targetListing : List String
  mkdirResult : Except String Unit
  copyResult : Except String Unit
  moveResult : Except String Unit

/-- The timestamp used for routing: metadata datetime if available,
otherwise the file's mtime — whose stat may raise. -/
def organize_dtResult (env : OrganizeEnv) (name : String) : Except String DateTime :=
  match (get_file_datetime env.meta name).1 with
  | some d => .ok d
  | none => env.statResult

/-- Embeds `organize_file_worker`. -/
def organize_file_worker (path : Path) (output_dir : List String)
    (dry_run copy_mode : Bool) (env : OrganizeEnv) (fuel : Nat) : Option WorkerRun :=
  let ext := strLower (pathSuffix path.name)
  if SUPPORTED_EXTENSIONS.contains ext then
    match organize_dtResult env path.name with
    | .error e => some ⟨.error e, []⟩
    | .ok dt =>
      let target_dir := output_dir ++ [pad 4 dt.year, pad 2 dt.month, pad 2 dt.day]
      match resolveName env.targetListing path.name ext fuel with
      | none => none
      | some final_name =>
        let target_path : Path := ⟨target_dir, final_name⟩
        let action := if copy_mode then "copy" else "move"
        if dry_run then
          some ⟨.ok (some ("Would " ++ action ++ ": " ++ pathStr path ++ " → " ++
                           relTo output_dir target_path)), []⟩
        else
          match env.mkdirResult with
          | .error e =>
            some ⟨.ok (some ("Error " ++ action ++ "ing " ++ pathStr path ++ ": " ++ e)),
                  [.mkdir target_dir]⟩
          | .ok _ =>
            let theOp := if copy_mode then FsOp.copy path target_path
                         else FsOp.move path target_path
            match (if copy_mode then env.copyResult else env.moveResult) with
            | .ok _ =>
              some ⟨.ok (some ((if copy_mode then "Copy" else "Move") ++ "d: " ++
                               path.name ++ " → " ++ relTo output_dir target_path)),
                    [.mkdir target_dir, theOp]⟩
            | .error e =>
              some ⟨.ok (some ("Error " ++ action ++ "ing " ++ pathStr path ++ ": " ++ e)),
                    [.mkdir target_dir, theOp]⟩
  else some ⟨.ok none, []⟩

/-- Embeds the result-collection loop of the `rename`/`organize`
commands: each `future.result()` re-raises an exception that escaped a
worker, aborting the whole batch; otherwise every per-file
`Optional[str]` outcome is collected. -/
def collectOutcomes : List WorkerRun → Except String (List (Option String))
  | [] => .ok []
  | r :: rs =>
    match r.result with
    | .error e => .error e
    | .ok msg => (collectOutcomes rs).map (fun l => msg :: l)

/-- A simple filesystem abstraction: the set of files and the set of
directories.  Only used to express frame conditions. -/
structure FsState where
  files : List Path
  dirs : List (List String)
deriving DecidableEq

def applyOp (s : FsState) : FsOp → FsState
  | .move src dst => ⟨(s.files.filter (fun q => q ≠ src)) ++ [dst], s.dirs⟩
  | .copy _ dst => ⟨s.files ++ [dst], s.dirs⟩
  | .mkdir d => ⟨s.files, s.dirs ++ [d]⟩

def applyOps (ops : List FsOp) (s : FsState) : FsState := ops.foldl applyOp s

/-! ## Helper lemmas about collision resolution -/

theorem resolveLoop_spec (L : List String) (base ext : String) :
    ∀ (fuel i : Nat) (m : String), resolveLoop L base ext fuel i = some m →
      ∃ k, i ≤ k ∧ m = dupName base k ext ∧ L.contains m = false ∧
        ∀ j, i ≤ j → j < k → L.contains (dupName base j ext) = true := by
  intro fuel
  induction fuel with
  | zero => intro i m h; simp [resolveLoop] at h
  | succ f ih =>
    intro i m h
    unfold resolveLoop at h
    by_cases hc : L.contains (dupName base i ext) = true
    · rw [if_pos hc] at h
      obtain ⟨k, hk1, hk2, hk3, hk4⟩ := ih (i + 1) m h
      refine ⟨k, by omega, hk2, hk3, ?_⟩
      intro j hj1 hj2
      rcases Nat.eq_or_lt_of_le hj1 with hj | hj
      · rw [← hj]; exact hc
      · exact hk4 j hj hj2
    · rw [if_neg hc] at h
      have hm : m = dupName base i ext := (Option.some.inj h).symm
      refine ⟨i, le_refl i, hm, ?_, ?_⟩
      · rw [hm]; simpa using hc
      · intro j hj1 hj2; omega

theorem dupName_inj (base ext : String) :
    Function.Injective (fun i => dupName base i ext) := by
  intro i j h
  simp only [dupName] at h
  have hd := congrArg String.data h
  simp only [strData_append] at hd
  have h1 : base.data ++ "_dup".data ++ (natStr i).data =
      base.data ++ "_dup".data ++ (natStr j).data :=
    List.append_cancel_right hd
  have h2 : (natStr i).data = (natStr j).data := List.append_cancel_left h1
  have h3 : natDigits i = natDigits j := h2
  exact natDigits_injective h3

theorem dupName_tried_nodup (base ext : String) (k : Nat) :
    ((List.range' 1 k).map (fun j => dupName base j ext)).Nodup :=
  (List.nodup_range' 1 k).map (dupName_inj base ext)

/-! ## Helper unfolding lemmas for the workers -/

theorem rename_file_worker_unsupported {path : Path} {env : RenameEnv}
    {dry : Bool} {fuel : Nat}
    (h : SUPPORTED_EXTENSIONS.contains (strLower (pathSuffix path.name)) = false) :
    rename_file_worker path dry env fuel = some ⟨.ok none, []⟩ := by
  have h' : ¬ strLower (pathSuffix path.name) ∈ SUPPORTED_EXTENSIONS := by simpa using h
  unfold rename_file_worker
  simp [h']

theorem rename_file_worker_invalid {path : Path} {env : RenameEnv}
    {dry : Bool} {fuel : Nat}
    (hsupp : SUPPORTED_EXTENSIONS.contains (strLower (pathSuffix path.name)) = true)
    (hval : validFileName (rename_new_name path env) = false) :
    rename_file_worker path dry env fuel =
      some ⟨.error ("Invalid name " ++ rename_new_name path env), []⟩ := by
  unfold rename_file_worker
  simp only [hsupp, if_true, hval]
  simp

theorem rename_file_worker_eq {path : Path} {env : RenameEnv}
    {dry : Bool} {fuel : Nat} {fn : String}
    (hsupp : SUPPORTED_EXTENSIONS.contains (strLower (pathSuffix path.name)) = true)
    (hval : validFileName (rename_new_name path env) = true)
    (hres : resolveName env.listing (rename_new_name path env)
      (strLower (pathSuffix path.name)) fuel = some fn) :
    rename_file_worker path dry env fuel =
      if dry then
        some ⟨.ok (some ("Would rename: " ++ path.name ++ " → " ++ fn)), []⟩
      else
        match env.moveResult with
        | .ok _ =>
          some ⟨.ok (some ("Renamed: " ++ path.name ++ " → " ++ fn)),
                [.move path ⟨path.dir, fn⟩]⟩
        | .error e =>
          some ⟨.ok (some ("Error renaming " ++ pathStr path ++ ": " ++ e)),
                [.move path ⟨path.dir, fn⟩]⟩ := by
  unfold rename_file_worker
  simp only [hsupp, if_true, hval, hres]

theorem organize_file_worker_unsupported {path : Path} {out : List String}
    {dry copy : Bool} {env : OrganizeEnv} {fuel : Nat}
    (h : SUPPORTED_EXTENSIONS.contains (strLower (pathSuffix path.name)) = false) :
    organize_file_worker path out dry copy env fuel = some ⟨.ok none, []⟩ := by
  have h' : ¬ strLower (pathSuffix path.name) ∈ SUPPORTED_EXTENSIONS := by simpa using h
  unfold organize_file_worker
  simp [h']

theorem organize_file_worker_raises {path : Path} {out : List String}
    {dry copy : Bool} {env : OrganizeEnv} {fuel : Nat} {e : String}
    (hsupp : SUPPORTED_EXTENSIONS.contains (strLower (pathSuffix path.name)) = true)
    (hdt : organize_dtResult env path.name = .error e) :
    organize_file_worker path out dry copy env fuel = some ⟨.error e, []⟩ := by
  unfold organize_file_worker
  simp only [hsupp, if_true, hdt]

theorem organize_file_worker_eq {path : Path} {out : List String}
    {dry copy : Bool} {env : OrganizeEnv} {fuel : Nat} {dt : DateTime} {fn : String}
    (hsupp : SUPPORTED_EXTENSIONS.contains (strLower (pathSuffix path.name)) = true)
    (hdt : organize_dtResult env path.name = .ok dt)
    (hres : resolveName env.targetListing path.name
      (strLower (pathSuffix path.name)) fuel = some fn) :
    organize_file_worker path out dry copy env fuel =
      (let target_dir := out ++ [pad 4 dt.year, pad 2 dt.month, pad 2 dt.day]
       let target_path : Path := ⟨target_dir, fn⟩
       let action := if copy then "copy" else "move"
       if dry then
         some ⟨.ok (some ("Would " ++ action ++ ": " ++ pathStr path ++ " → " ++
                          relTo out target_path)), []⟩
       else
         match env.mkdirResult with
         | .error e =>
           some ⟨.ok (some ("Error " ++ action ++ "ing " ++ pathStr path ++ ": " ++ e)),
                 [.mkdir target_dir]⟩
         | .ok _ =>
           let theOp := if copy then FsOp.copy path target_path
                        else FsOp.move path target_path
           match (if copy then env.copyResult else env.moveResult) with
           | .ok _ =>
             some ⟨.ok (some ((if copy then "Copy" else "Move") ++ "d: " ++
                              path.name ++ " → " ++ relTo out target_path)),
                   [.mkdir target_dir, theOp]⟩
           | .error e =>
             some ⟨.ok (some ("Error " ++ action ++ "ing " ++ pathStr path ++ ": " ++ e)),
                   [.mkdir target_dir, theOp]⟩) := by
  unfold organize_file_worker
  simp only [hsupp, if_true, hdt, hres]

/-- Strings with equal character data are equal. -/
theorem str_eq_of_data {a b : String} (h : a.data = b.data) : a = b := by
  cases a; cases b; cases h; rfl

/-- Destination directory touched by a filesystem operation. -/
def opDestDir : FsOp → List String
  | .move _ dst => dst.dir
  | .copy _ dst => dst.dir
  | .mkdir d => d

/-- `organize_dtResult` succeeds exactly with the metadata timestamp or,
failing that, the successfully stat-ed mtime. -/
theorem organize_dtResult_ok_iff (env : OrganizeEnv) (name : String) (dt : DateTime) :
    organize_dtResult env name = .ok dt ↔
      ((get_file_datetime env.meta name).1 = some dt ∨
        ((get_file_datetime env.meta name).1 = none ∧ env.statResult = Except.ok dt)) := by
  unfold organize_dtResult
  cases hfst : (get_file_datetime env.meta name).1 with
  | some d => simp
  | none => simp

/-- If the worker never needs the unguarded `stat` call, or that call
succeeds, then no exception escapes `organize_file_worker`: the run's
result is a normal Python return value. -/
theorem organize_worker_result_ok {p : Path} {out : List String}
    {dry copy : Bool} {env : OrganizeEnv} {fuel : Nat} {r : WorkerRun}
    (hio : (get_file_datetime env.meta p.name).1.isSome = true ∨
      ∃ d, env.statResult = Except.ok d)
    (hrun : organize_file_worker p out dry copy env fuel = some r) :
    ∃ msg, r.result = .ok msg := by
  cases hb : SUPPORTED_EXTENSIONS.contains (strLower (pathSuffix p.name)) with
  | false =>
    rw [organize_file_worker_unsupported hb] at hrun
    obtain rfl := Option.some.inj hrun
    exact ⟨none, rfl⟩
  | true =>
    cases hdt : organize_dtResult env p.name with
    | error e =>
      exfalso
      unfold organize_dtResult at hdt
      cases hfst : (get_file_datetime env.meta p.name).1 with
      | some d => rw [hfst] at hdt; exact Except.noConfusion hdt
      | none =>
        rw [hfst] at hdt
        rcases hio with hio | ⟨d, hd⟩
        · rw [hfst] at hio; simp at hio
        · rw [hd] at hdt; exact Except.noConfusion hdt
    | ok dt =>
      cases hres : resolveName env.targetListing p.name
          (strLower (pathSuffix p.name)) fuel with
      | none =>
        exfalso
        unfold organize_file_worker at hrun
        simp only [hb, if_true, hdt, hres] at hrun
        exact Option.noConfusion hrun
      | some fn =>
        rw [organize_file_worker_eq hb hdt hres] at hrun
        dsimp only at hrun
        split at hrun
        · obtain rfl := Option.some.inj hrun; exact ⟨_, rfl⟩
        · split at hrun
          · obtain rfl := Option.some.inj hrun; exact ⟨_, rfl⟩
          · split at hrun
            · obtain rfl := Option.some.inj hrun; exact ⟨_, rfl⟩
            · obtain rfl := Option.some.inj hrun; exact ⟨_, rfl⟩

/-! ## Claim theorems -/

/-- C3 (counterexample): the claim says that on an I/O failure
`compute_file_hash` returns an all-zero string of exactly the requested
`length` characters, for every requested length.  At `hash_length = 9`
the failure branch returns `"00000000"[:9] = "00000000"`, which has 8
characters, not 9. -/
theorem C3_counterexample : (compute_file_hash none 9).data.length ≠ 9 := by decide

/-- C3 (amended): `compute_file_hash` returns the content-hash hex digest
truncated to `length` characters — exactly `length` of them whenever
`length ≤ 32` — and on any I/O failure returns the fixed sentinel
`"00000000"` truncated to `length`, which is an all-zero string of
exactly `length` characters whenever `length ≤ 8` (and of 8 characters
otherwise). -/
theorem C3_hash_truncation (dg : String) (len : Nat) :
    (compute_file_hash (some dg) len = strTake dg len) ∧
    (dg.data.length = 32 → (compute_file_hash (some dg) len).data.length = min len 32) ∧
    (compute_file_hash none len = strTake "00000000" len) ∧
    ((compute_file_hash none len).data.length = min len 8) ∧
    (∀ c ∈ (compute_file_hash none len).data, c = '0') ∧
    (len ≤ 8 → (compute_file_hash none len).data.length = len) := by
  refine ⟨rfl, ?_, rfl, ?_, ?_, ?_⟩
  · intro h32
    simp [compute_file_hash, strTake, h32]
  · simp [compute_file_hash, strTake]
  · intro c hc
    simp only [compute_file_hash, strTake] at hc
    have hmem := List.take_subset len ("00000000" : String).data hc
    have hdata : ("00000000" : String).data = ['0','0','0','0','0','0','0','0'] := rfl
    rw [hdata] at hmem
    simpa using hmem
  · intro hle
    simp [compute_file_hash, strTake]
    have : ("00000000" : String).data.length = 8 := by decide
    omega

/-- C3 (witness for the amended theorem). -/
theorem C3_hash_truncation_witness :
    (compute_file_hash (some "0123456789abcdef0123456789abcdef") 9).data.length = min 9 32 ∧
    (compute_file_hash none 5).data.length = 5 :=
  ⟨(C3_hash_truncation "0123456789abcdef0123456789abcdef" 9).2.1 (by decide),
   (C3_hash_truncation "x" 5).2.2.2.2.2 (by decide)⟩

/-- C5: when the synthesized candidate name already exists in the
directory, collision resolution returns a name `<stem>_dup<k>` with
`k ≥ 1` that is not present, every earlier counter value `1 ≤ j < k`
named a file that was present (the counter increases by exactly one per
step, starting at 1), and the tried candidates `_dup1 … _dup<k>` are
pairwise distinct — no tried name is ever revisited in one pass. -/
theorem C5_collision_resolution (listing : List String)
    (new_name ext m : String) (fuel : Nat)
    (hmem : listing.contains new_name = true)
    (hres : resolveName listing new_name ext fuel = some m) :
    ∃ k, 1 ≤ k ∧ m = dupName (pathStem new_name) k ext ∧
      listing.contains m = false ∧
      (∀ j, 1 ≤ j → j < k → listing.contains (dupName (pathStem new_name) j ext) = true) ∧
      ((List.range' 1 k).map (fun j => dupName (pathStem new_name) j ext)).Nodup := by
  unfold resolveName at hres
  rw [if_pos hmem] at hres
  obtain ⟨k, hk1, hk2, hk3, hk4⟩ := resolveLoop_spec listing (pathStem new_name) ext fuel 1 m hres
  exact ⟨k, hk1, hk2, hk3, hk4, dupName_tried_nodup _ _ _⟩

/-- C5 (witness): with `a.jpg` and `a_dup1.jpg` taken, the candidate
`a.jpg` resolves to `a_dup2.jpg`. -/
theorem C5_collision_resolution_witness :
    ∃ k, 1 ≤ k ∧ "a_dup2.jpg" = dupName (pathStem "a.jpg") k ".jpg" ∧
      (["a.jpg", "a_dup1.jpg"] : List String).contains "a_dup2.jpg" = false ∧
      (∀ j, 1 ≤ j → j < k →
        (["a.jpg", "a_dup1.jpg"] : List String).contains
          (dupName (pathStem "a.jpg") j ".jpg") = true) ∧
      ((List.range' 1 k).map (fun j => dupName (pathStem "a.jpg") j ".jpg")).Nodup :=
  C5_collision_resolution ["a.jpg", "a_dup1.jpg"] "a.jpg" ".jpg" "a_dup2.jpg" 5
    (by decide) (by decide)

/-- C8: file discovery keeps exactly the files whose lower-cased
extension is in the supported set, and each worker, handed a file with
an unsupported extension, returns `None` without attempting any
filesystem operation — unsupported files are never touched. -/
theorem C8_only_supported_files (walked : List Path) :
    (∀ p ∈ collect_files walked,
      SUPPORTED_EXTENSIONS.contains (strLower (pathSuffix p.name)) = true) ∧
    (∀ (p : Path) (dry : Bool) (renv : RenameEnv) (fuel : Nat),
      SUPPORTED_EXTENSIONS.contains (strLower (pathSuffix p.name)) = false →
      rename_file_worker p dry renv fuel = some ⟨.ok none, []⟩) ∧
    (∀ (p : Path) (out : List String) (dry copy : Bool) (oenv : OrganizeEnv) (fuel : Nat),
      SUPPORTED_EXTENSIONS.contains (strLower (pathSuffix p.name)) = false →
      organize_file_worker p out dry copy oenv fuel = some ⟨.ok none, []⟩) := by
  refine ⟨?_, ?_, ?_⟩
  · intro p hp
    have := List.mem_filter.mp hp
    exact this.2
  · intro p dry renv fuel h
    exact rename_file_worker_unsupported h
  · intro p out dry copy oenv fuel h
    exact organize_file_worker_unsupported h

/-- C8 (witness): `b.jpg` survives discovery; a `.txt` file is returned
untouched by both workers. -/
theorem C8_only_supported_files_witness :
    SUPPORTED_EXTENSIONS.contains
      (strLower (pathSuffix (Path.mk [] "b.jpg").name)) = true ∧
    rename_file_worker ⟨[], "a.txt"⟩ false
      ⟨none, ⟨none, none⟩, [], .ok ()⟩ 3 = some ⟨.ok none, []⟩ ∧
    organize_file_worker ⟨[], "a.txt"⟩ ["dest"] false false
      ⟨⟨none, none⟩, .error "boom", [], .ok (), .ok (), .ok ()⟩ 3 = some ⟨.ok none, []⟩ :=
  ⟨(C8_only_supported_files [⟨[], "a.txt"⟩, ⟨[], "b.jpg"⟩]).1 ⟨[], "b.jpg"⟩ (by decide),
   (C8_only_supported_files []).2.1 ⟨[], "a.txt"⟩ false ⟨none, ⟨none, none⟩, [], .ok ()⟩ 3 (by decide),
   (C8_only_supported_files []).2.2 ⟨[], "a.txt"⟩ ["dest"] false false
     ⟨⟨none, none⟩, .error "boom", [], .ok (), .ok (), .ok ()⟩ 3 (by decide)⟩

theorem video_not_photo {s : String} (h : VIDEO_EXTENSIONS.contains s = true) :
    PHOTO_EXTENSIONS.contains s = false := by
  simp [VIDEO_EXTENSIONS] at h
  rcases h with rfl | rfl | rfl <;> decide

/-- C9: the metadata extractor is total (it is a function into
`Option DateTime × String`; every exception path of the source is caught
and embedded as a value) and returns `(no timestamp, "Unknown")` on an
unreadable image file, on an image with no tags at all, on an image
whose date tags are all absent along with the model tag, on an
unparsable date tag (whichever of `DateTimeOriginal`/`DateTime` is
chosen), and on an unsupported extension; for video extensions the
device is always `"Unknown"`. -/
theorem C9_extractor_never_raises (env : MetaEnv) (name : String) :
    (PHOTO_EXTENSIONS.contains (strLower (pathSuffix name)) = true →
      (env.exif = none → get_file_datetime env name = (none, "Unknown")) ∧
      (∀ e, env.exif = some e → e.isEmptyExif = true →
        get_file_datetime env name = (none, "Unknown")) ∧
      (∀ e, env.exif = some e → e.dateTimeOriginal = none → e.dateTime = none →
        e.model = none → get_file_datetime env name = (none, "Unknown")) ∧
      (∀ e ts, env.exif = some e → e.dateTimeOriginal = some ts →
        strptimeYmdHMS ts = none → get_file_datetime env name = (none, "Unknown")) ∧
      (∀ e ts, env.exif = some e → e.dateTimeOriginal = none → e.dateTime = some ts →
        strptimeYmdHMS ts = none → get_file_datetime env name = (none, "Unknown"))) ∧
    (VIDEO_EXTENSIONS.contains (strLower (pathSuffix name)) = true →
      (get_file_datetime env name).2 = "Unknown") ∧
    (PHOTO_EXTENSIONS.contains (strLower (pathSuffix name)) = false →
      VIDEO_EXTENSIONS.contains (strLower (pathSuffix name)) = false →
      get_file_datetime env name = (none, "Unknown")) := by
  refine ⟨?_, ?_, ?_⟩
  · intro hph
    have hdisp : get_file_datetime env name = get_exif_datetime env.exif := by
      unfold get_file_datetime
      simp only [hph, if_true]
    refine ⟨?_, ?_, ?_, ?_, ?_⟩
    · intro hnone
      rw [hdisp, hnone]
      rfl
    · intro e he hemp
      rw [hdisp, he]
      unfold get_exif_datetime
      simp only [hemp, if_true]
    · intro e h1 h2 h3 h4
      rw [hdisp, h1]
      unfold get_exif_datetime
      by_cases hemp : e.isEmptyExif = true
      · simp [hemp]
      · simp [hemp, h2, h3, h4]
    · intro e ts he hts hbad
      rw [hdisp, he]
      unfold get_exif_datetime
      by_cases hemp : e.isEmptyExif = true
      · simp [hemp]
      · simp [hemp, hts, hbad]
    · intro e ts he hdto hdt hbad
      rw [hdisp, he]
      unfold get_exif_datetime
      by_cases hemp : e.isEmptyExif = true
      · simp [hemp]
      · simp [hemp, hdto, hdt, hbad]
  · intro hv
    have hph := video_not_photo hv
    have hph' : ¬ strLower (pathSuffix name) ∈ PHOTO_EXTENSIONS := by simpa using hph
    have hv' : strLower (pathSuffix name) ∈ VIDEO_EXTENSIONS := by simpa using hv
    unfold get_file_datetime
    simp [hph', hv']
  · intro hph hv
    have hph' : ¬ strLower (pathSuffix name) ∈ PHOTO_EXTENSIONS := by simpa using hph
    have hv' : ¬ strLower (pathSuffix name) ∈ VIDEO_EXTENSIONS := by simpa using hv
    unfold get_file_datetime
    simp [hph', hv']

/-- C9 (witness): an unparsable `DateTimeOriginal` on a `.jpg` yields no
timestamp and device `"Unknown"` even though a `Model` tag is present;
a video extension yields device `"Unknown"`. -/
theorem C9_extractor_never_raises_witness :
    get_file_datetime ⟨some ⟨some "not a date", none, some "Pixel 7", false⟩, none⟩
      "x.jpg" = (none, "Unknown") ∧
    (get_file_datetime ⟨none, some ⟨2023, 5, 1, 0, 0, 0⟩⟩ "clip.MOV").2 = "Unknown" :=
  ⟨((C9_extractor_never_raises ⟨some ⟨some "not a date", none, some "Pixel 7", false⟩, none⟩
      "x.jpg").1 (by decide)).2.2.2.1
      ⟨some "not a date", none, some "Pixel 7", false⟩ "not a date" rfl rfl (by decide),
   (C9_extractor_never_raises ⟨none, some ⟨2023, 5, 1, 0, 0, 0⟩⟩ "clip.MOV").2.1 (by decide)⟩

/-- C6 (counterexample): the claim says every file in dry-run mode
returns a message describing the action that would occur.  But
`path.with_name(new_name)` at main.py line 52 runs before the dry-run
check and outside any `try`: an EXIF camera model containing a path
separator (here `Pix/el`) makes the synthesized name invalid, the
`ValueError` escapes the worker even under dry-run, and no message is
returned for that file (no mutation is attempted either). -/
theorem C6_counterexample :
    SUPPORTED_EXTENSIONS.contains (strLower (pathSuffix "pic.jpg")) = true ∧
    rename_file_worker ⟨["photos"], "pic.jpg"⟩ true
      ⟨none, ⟨some ⟨none, none, some "Pix/el", false⟩, none⟩, [], .ok ()⟩ 3 =
      some ⟨.error ("Invalid name " ++ "UnknownDate_C_Pix/el_00000000.jpg"), []⟩ :=
  ⟨by decide, rfl⟩

/-- C6 (amended): with dry-run enabled, neither worker attempts any
filesystem mutation — no move, no copy, no directory creation; applying
the (empty) list of attempted operations leaves any filesystem state
unchanged — and the returned value is a message describing the action
that would have occurred, starting with `"Would "`, whenever the
per-file processing completes normally: in rename mode when the
synthesized name is a valid filename, in organize mode when the routing
timestamp was obtained.  When the synthesized rename name is invalid
(a path separator from an EXIF model), the unguarded `with_name` call
raises even under dry-run and the worker returns no message — but
still performs no mutation. -/
theorem C6_dry_run_no_mutation (p : Path) (renv : RenameEnv) (out : List String)
    (copy : Bool) (oenv : OrganizeEnv) (fuel : Nat) :
    (∀ r, rename_file_worker p true renv fuel = some r →
      r.ops = [] ∧ (∀ s : FsState, applyOps r.ops s = s) ∧
      (SUPPORTED_EXTENSIONS.contains (strLower (pathSuffix p.name)) = true →
        validFileName (rename_new_name p renv) = true →
        ∃ msg, r.result = .ok (some msg) ∧ strStarts "Would " msg) ∧
      (SUPPORTED_EXTENSIONS.contains (strLower (pathSuffix p.name)) = true →
        validFileName (rename_new_name p renv) = false →
        r.result = .error ("Invalid name " ++ rename_new_name p renv))) ∧
    (∀ r, organize_file_worker p out true copy oenv fuel = some r →
      r.ops = [] ∧ (∀ s : FsState, applyOps r.ops s = s) ∧
      (SUPPORTED_EXTENSIONS.contains (strLower (pathSuffix p.name)) = true →
        ∀ dt, organize_dtResult oenv p.name = Except.ok dt →
        ∃ msg, r.result = .ok (some msg) ∧ strStarts "Would " msg)) := by
  constructor
  · intro r hrun
    cases hb : SUPPORTED_EXTENSIONS.contains (strLower (pathSuffix p.name)) with
    | false =>
      rw [rename_file_worker_unsupported hb] at hrun
      obtain rfl := Option.some.inj hrun
      refine ⟨rfl, fun s => rfl, ?_, ?_⟩
      · intro h
        exact absurd h (by decide)
      · intro h
        exact absurd h (by decide)
    | true =>
      cases hv : validFileName (rename_new_name p renv) with
      | false =>
        rw [rename_file_worker_invalid hb hv] at hrun
        obtain rfl := Option.some.inj hrun
        refine ⟨rfl, fun s => rfl, ?_, ?_⟩
        · intro _ h
          exact absurd h (by decide)
        · intro _ _
          rfl
      | true =>
        cases hres : resolveName renv.listing (rename_new_name p renv)
            (strLower (pathSuffix p.name)) fuel with
        | none =>
          exfalso
          unfold rename_file_worker at hrun
          simp only [hb, if_true, hv, hres] at hrun
          exact Option.noConfusion hrun
        | some fn =>
          rw [rename_file_worker_eq hb hv hres] at hrun
          rw [if_pos rfl] at hrun
          obtain rfl := Option.some.inj hrun
          refine ⟨rfl, fun s => rfl, fun _ _ => ⟨_, rfl, ?_⟩, ?_⟩
          · refine ⟨("rename: " : String).data ++
              (p.name.data ++ ((" → " : String).data ++ fn.data)), ?_⟩
            have h1 : ("Would rename: " : String).data =
                ("Would " : String).data ++ ("rename: " : String).data := rfl
            simp [strData_append, List.append_assoc, h1]
          · intro _ h
            exact absurd h (by decide)
  · intro r hrun
    cases hb : SUPPORTED_EXTENSIONS.contains (strLower (pathSuffix p.name)) with
    | false =>
      rw [organize_file_worker_unsupported hb] at hrun
      obtain rfl := Option.some.inj hrun
      refine ⟨rfl, fun s => rfl, ?_⟩
      intro h
      exact absurd h (by decide)
    | true =>
      cases hdt : organize_dtResult oenv p.name with
      | error e =>
        rw [organize_file_worker_raises hb hdt] at hrun
        obtain rfl := Option.some.inj hrun
        refine ⟨rfl, fun s => rfl, ?_⟩
        intro _ dt hdt2
        exact Except.noConfusion hdt2
      | ok dt0 =>
        cases hres : resolveName oenv.targetListing p.name
            (strLower (pathSuffix p.name)) fuel with
        | none =>
          exfalso
          unfold organize_file_worker at hrun
          simp only [hb, if_true, hdt, hres] at hrun
          exact Option.noConfusion hrun
        | some fn =>
          rw [organize_file_worker_eq hb hdt hres] at hrun
          dsimp only at hrun
          rw [if_pos rfl] at hrun
          obtain rfl := Option.some.inj hrun
          refine ⟨rfl, fun s => rfl, ?_⟩
          intro _ dt hdt2
          refine ⟨_, rfl, ?_⟩
          refine ⟨(if copy then ("copy" : String) else "move").data ++
            ((": " : String).data ++ (pathStr p).data ++ ((" → " : String).data ++
              (relTo out ⟨out ++ [pad 4 dt0.year, pad 2 dt0.month, pad 2 dt0.day],
                fn⟩).data)), ?_⟩
          simp [strData_append, List.append_assoc]


/-- C6 (witness for the amended theorem). -/
theorem C6_dry_run_no_mutation_witness :
    (⟨.ok (some "Would rename: snap.PNG → UnknownDate_C_Unknown_00000000.png"), []⟩ :
        WorkerRun).ops = [] ∧
    ∃ msg, (⟨.ok (some "Would rename: snap.PNG → UnknownDate_C_Unknown_00000000.png"), []⟩ :
        WorkerRun).result = .ok (some msg) ∧ strStarts "Would " msg := by
  have h := (C6_dry_run_no_mutation ⟨["d"], "snap.PNG"⟩
    ⟨none, ⟨none, none⟩, [], .ok ()⟩ ["dest"] false
    ⟨⟨none, none⟩, .error "x", [], .ok (), .ok (), .ok ()⟩ 3).1
    ⟨.ok (some "Would rename: snap.PNG → UnknownDate_C_Unknown_00000000.png"), []⟩
    (by rfl)
  exact ⟨h.1, h.2.2.1 (by decide) (by decide)⟩

/-- C7: every filesystem operation attempted by `organize_file_worker`
targets the concrete directory `out/YYYY/MM/DD` — the components are
all-digit strings, never an "Unknown date" directory — where the date
comes from the extracted capture timestamp when present and otherwise
from the file's last-modified time obtained from filesystem metadata. -/
theorem C7_concrete_date_dirs (p : Path) (out : List String) (dry copy : Bool)
    (env : OrganizeEnv) (fuel : Nat) (r : WorkerRun)
    (hrun : organize_file_worker p out dry copy env fuel = some r) :
    ∀ op ∈ r.ops, ∃ d : DateTime,
      opDestDir op = out ++ [pad 4 d.year, pad 2 d.month, pad 2 d.day] ∧
      ((get_file_datetime env.meta p.name).1 = some d ∨
        ((get_file_datetime env.meta p.name).1 = none ∧ env.statResult = Except.ok d)) ∧
      (∀ s ∈ [pad 4 d.year, pad 2 d.month, pad 2 d.day],
        ∀ c ∈ s.data, c.isDigit = true) := by
  cases hb : SUPPORTED_EXTENSIONS.contains (strLower (pathSuffix p.name)) with
  | false =>
    rw [organize_file_worker_unsupported hb] at hrun
    obtain rfl := Option.some.inj hrun
    intro op hop
    simp at hop
  | true =>
    cases hdt : organize_dtResult env p.name with
    | error e =>
      rw [organize_file_worker_raises hb hdt] at hrun
      obtain rfl := Option.some.inj hrun
      intro op hop
      simp at hop
    | ok dt =>
      have hsrc := (organize_dtResult_ok_iff env p.name dt).mp hdt
      have hdigits : ∀ s ∈ [pad 4 dt.year, pad 2 dt.month, pad 2 dt.day],
          ∀ c ∈ s.data, c.isDigit = true := by
        intro s hs c hc
        simp only [List.mem_cons, List.not_mem_nil, or_false] at hs
        rcases hs with rfl | rfl | rfl <;> exact isDigit_of_mem_pad hc
      cases hres : resolveName env.targetListing p.name
          (strLower (pathSuffix p.name)) fuel with
      | none =>
        exfalso
        unfold organize_file_worker at hrun
        simp only [hb, if_true, hdt, hres] at hrun
        exact Option.noConfusion hrun
      | some fn =>
        rw [organize_file_worker_eq hb hdt hres] at hrun
        dsimp only at hrun
        cases hdry : dry with
        | true =>
          rw [hdry] at hrun
          rw [if_pos rfl] at hrun
          obtain rfl := Option.some.inj hrun
          intro op hop
          simp at hop
        | false =>
          rw [hdry] at hrun
          rw [if_neg (by decide)] at hrun
          cases hmk : env.mkdirResult with
          | error e' =>
            rw [hmk] at hrun
            dsimp only at hrun
            obtain rfl := Option.some.inj hrun
            intro op hop
            simp only [List.mem_cons, List.not_mem_nil, or_false] at hop
            subst hop
            exact ⟨dt, rfl, hsrc, hdigits⟩
          | ok u =>
            rw [hmk] at hrun
            dsimp only at hrun
            cases hcr : (if copy then env.copyResult else env.moveResult) with
            | ok v =>
              rw [hcr] at hrun
              dsimp only at hrun
              obtain rfl := Option.some.inj hrun
              intro op hop
              simp only [List.mem_cons, List.not_mem_nil, or_false] at hop
              rcases hop with rfl | rfl
              · exact ⟨dt, rfl, hsrc, hdigits⟩
              · cases copy
                · exact ⟨dt, rfl, hsrc, hdigits⟩
                · exact ⟨dt, rfl, hsrc, hdigits⟩
            | error e' =>
              rw [hcr] at hrun
              dsimp only at hrun
              obtain rfl := Option.some.inj hrun
              intro op hop
              simp only [List.mem_cons, List.not_mem_nil, or_false] at hop
              rcases hop with rfl | rfl
              · exact ⟨dt, rfl, hsrc, hdigits⟩
              · cases copy
                · exact ⟨dt, rfl, hsrc, hdigits⟩
                · exact ⟨dt, rfl, hsrc, hdigits⟩

/-- C7 (witness): a video with no extractable timestamp and mtime
2023-05-01 is routed to `dest/2023/05/01`. -/
theorem C7_concrete_date_dirs_witness :
    ∃ d : DateTime,
      opDestDir (FsOp.mkdir ["dest", "2023", "05", "01"]) =
        ["dest"] ++ [pad 4 d.year, pad 2 d.month, pad 2 d.day] ∧
      ((get_file_datetime (MetaEnv.mk none (some ⟨2023, 5, 1, 0, 0, 0⟩))
          (Path.mk ["src"] "a.avi").name).1 = some d ∨
        ((get_file_datetime (MetaEnv.mk none (some ⟨2023, 5, 1, 0, 0, 0⟩))
            (Path.mk ["src"] "a.avi").name).1 = none ∧
          Except.error "unused" = Except.ok d)) ∧
      (∀ s ∈ [pad 4 d.year, pad 2 d.month, pad 2 d.day],
        ∀ c ∈ s.data, c.isDigit = true) :=
  C7_concrete_date_dirs ⟨["src"], "a.avi"⟩ ["dest"] false false
    ⟨⟨none, some ⟨2023, 5, 1, 0, 0, 0⟩⟩, .error "unused", [], .ok (), .ok (), .ok ()⟩ 3
    ⟨.ok (some "Moved: a.avi → 2023/05/01/a.avi"),
     [.mkdir ["dest", "2023", "05", "01"],
      .move ⟨["src"], "a.avi"⟩ ⟨["dest", "2023", "05", "01"], "a.avi"⟩]⟩
    (by rfl) (FsOp.mkdir ["dest", "2023", "05", "01"]) (by decide)

theorem underscore_A (a : String) : a ++ "_" ++ "A" ++ "_" = a ++ "_A_" := by
  apply str_eq_of_data
  simp only [strData_append, List.append_assoc]
  rfl

/-- C4: for a supported file, the synthesized canonical name is exactly
`<strftime("%Y%m%d_%H%M%S")>_A_<Device>_<fingerprint><ext>` when a
capture timestamp was recovered and exactly
`UnknownDate_C_<Device>_<fingerprint><ext>` when not, where `<ext>` is
the lower-cased original extension; the fingerprint has exactly 8 hex
characters on a successful read of a 32-character digest (and is the
8-zero sentinel otherwise); and with no pre-existing collision the
worker keeps exactly this name. -/
theorem C4_canonical_name_format (p : Path) (env : RenameEnv) :
    (∀ d cam, get_file_datetime env.meta p.name = (some d, cam) →
      rename_new_name p env =
        strftimeCompact d ++ "_A_" ++ cam ++ "_" ++ compute_file_hash env.hashHex ++
          strLower (pathSuffix p.name)) ∧
    (∀ cam, get_file_datetime env.meta p.name = (none, cam) →
      rename_new_name p env =
        "UnknownDate_C_" ++ cam ++ "_" ++ compute_file_hash env.hashHex ++
          strLower (pathSuffix p.name)) ∧
    (∀ dg, env.hashHex = some dg → dg.data.length = 32 →
      (compute_file_hash env.hashHex).data.length = 8) ∧
    (env.hashHex = none → compute_file_hash env.hashHex = "00000000") ∧
    (∀ fuel, env.listing.contains (rename_new_name p env) = false →
      resolveName env.listing (rename_new_name p env)
        (strLower (pathSuffix p.name)) fuel = some (rename_new_name p env)) := by
  refine ⟨?_, ?_, ?_, ?_, ?_⟩
  · intro d cam h
    simp only [rename_new_name, h]
    rw [underscore_A (strftimeCompact d)]
  · intro cam h
    simp only [rename_new_name, h]
    have hU : ("UnknownDate" : String) ++ "_" ++ "C" ++ "_" = "UnknownDate_C_" := rfl
    rw [hU]
  · intro dg hdg h32
    rw [hdg]
    simp [compute_file_hash, HASH_LENGTH, strTake, h32]
  · intro h
    rw [h]
    rfl
  · intro fuel hno
    unfold resolveName
    rw [hno]
    simp

/-- C4 (witness): the spec's scenario — EXIF `DateTimeOriginal =
2024:01:23 10:15:30`, `Model = "Pixel 7"`, digest starting `abcd1234` —
yields `20240123_101530_A_Pixel_7_abcd1234.jpg` (with the extension
lower-cased from `.JPG`). -/
theorem C4_canonical_name_format_witness :
    rename_new_name ⟨["photos"], "IMG_001.JPG"⟩
      ⟨some "abcd1234abcd1234abcd1234abcd1234",
       ⟨some ⟨some "2024:01:23 10:15:30", none, some "Pixel 7", false⟩, none⟩,
       [], .ok ()⟩ =
      strftimeCompact ⟨2024, 1, 23, 10, 15, 30⟩ ++ "_A_" ++ "Pixel_7" ++ "_" ++
        compute_file_hash (some "abcd1234abcd1234abcd1234abcd1234") ++
        strLower (pathSuffix "IMG_001.JPG") ∧
    (compute_file_hash (some "abcd1234abcd1234abcd1234abcd1234")).data.length = 8 ∧
    rename_new_name ⟨["photos"], "IMG_001.JPG"⟩
      ⟨some "abcd1234abcd1234abcd1234abcd1234",
       ⟨some ⟨some "2024:01:23 10:15:30", none, some "Pixel 7", false⟩, none⟩,
       [], .ok ()⟩ = "20240123_101530_A_Pixel_7_abcd1234.jpg" :=
  ⟨(C4_canonical_name_format ⟨["photos"], "IMG_001.JPG"⟩
      ⟨some "abcd1234abcd1234abcd1234abcd1234",
       ⟨some ⟨some "2024:01:23 10:15:30", none, some "Pixel 7", false⟩, none⟩,
       [], .ok ()⟩).1 ⟨2024, 1, 23, 10, 15, 30⟩ "Pixel_7" (by rfl),
   (C4_canonical_name_format ⟨["photos"], "IMG_001.JPG"⟩
      ⟨some "abcd1234abcd1234abcd1234abcd1234",
       ⟨some ⟨some "2024:01:23 10:15:30", none, some "Pixel 7", false⟩, none⟩,
       [], .ok ()⟩).2.2.1 "abcd1234abcd1234abcd1234abcd1234" rfl (by decide),
   by rfl⟩

theorem supported_ext_shape {s : String}
    (h : SUPPORTED_EXTENSIONS.contains s = true) :
    ∃ t, s.data = '.' :: t ∧ t ≠ [] ∧ '.' ∉ t := by
  simp [SUPPORTED_EXTENSIONS] at h
  rcases h with rfl | rfl | rfl | rfl | rfl | rfl | rfl <;>
    exact ⟨_, rfl, by decide, by decide⟩

/-- Whatever collision resolution returns for the candidate
`core ++ ext`, the result still begins with `core`: either it is the
candidate itself or `core` with a `_dup<k>` suffix. -/
theorem resolve_preserves_core {L : List String} {core ext m : String}
    {t : List Char} {fuel : Nat}
    (hext : ext.data = '.' :: t) (htne : t ≠ []) (htnd : '.' ∉ t)
    (hc : core.data ≠ [])
    (hres : resolveName L (core ++ ext) ext fuel = some m) :
    ∃ rest, m.data = core.data ++ rest := by
  unfold resolveName at hres
  by_cases hmem : L.contains (core ++ ext) = true
  · rw [if_pos hmem] at hres
    obtain ⟨k, -, hk2, -, -⟩ := resolveLoop_spec L _ ext fuel 1 m hres
    rw [pathStem_append hext htne htnd hc] at hk2
    subst hk2
    refine ⟨("_dup" : String).data ++ ((natStr k).data ++ ext.data), ?_⟩
    simp [dupName, strData_append, List.append_assoc]
  · rw [if_neg hmem] at hres
    obtain rfl := Option.some.inj hres
    exact ⟨ext.data, strData_append core ext⟩

theorem strftime_head_digit (d : DateTime) :
    ∃ c cs, (strftimeCompact d).data = c :: cs ∧ c.isDigit = true := by
  cases hpd : (pad 4 d.year).data with
  | nil => exact absurd hpd (pad_data_ne_nil 4 d.year)
  | cons c cs =>
    refine ⟨c, cs ++ ((pad 2 d.month).data ++ ((pad 2 d.day).data ++
      (("_" : String).data ++ ((pad 2 d.hour).data ++ ((pad 2 d.minute).data ++
        (pad 2 d.second).data))))), ?_,
      isDigit_of_mem_pad (by rw [hpd]; exact List.mem_cons_self _ _)⟩
    simp [strftimeCompact, strData_append, List.append_assoc, hpd]

/-- C10: the synthesized name (also after `_dup` collision suffixing)
pairs confidence `A` exactly with a concrete `strftime("%Y%m%d_%H%M%S")`
date part — a string of digits and one underscore, never the token
`UnknownDate` — and confidence `C` exactly with the literal date part
`UnknownDate`: a name beginning `UnknownDate_A_` or
`<timestamp>_C_` is never produced. -/
theorem C10_confidence_matches_date (p : Path) (env : RenameEnv)
    (fuel : Nat) (m : String)
    (hsupp : SUPPORTED_EXTENSIONS.contains (strLower (pathSuffix p.name)) = true)
    (hres : resolveName env.listing (rename_new_name p env)
      (strLower (pathSuffix p.name)) fuel = some m) :
    (∀ d, (get_file_datetime env.meta p.name).1 = some d →
      strStarts (strftimeCompact d ++ "_A_") m ∧ ¬ strStarts "UnknownDate" m) ∧
    ((get_file_datetime env.meta p.name).1 = none → strStarts "UnknownDate_C_" m) ∧
    (∀ d : DateTime, ∀ c ∈ (strftimeCompact d).data, c.isDigit = true ∨ c = '_') := by
  obtain ⟨t, hext, htne, htnd⟩ := supported_ext_shape hsupp
  refine ⟨?_, ?_, ?_⟩
  · intro d hdc
    have hnm : rename_new_name p env =
        (strftimeCompact d ++ "_" ++ "A" ++ "_" ++ (get_file_datetime env.meta p.name).2 ++
          "_" ++ compute_file_hash env.hashHex) ++ strLower (pathSuffix p.name) := by
      simp only [rename_new_name, hdc]
    rw [hnm] at hres
    have hcore : ((strftimeCompact d ++ "_" ++ "A" ++ "_" ++
        (get_file_datetime env.meta p.name).2 ++ "_" ++
        compute_file_hash env.hashHex) : String).data ≠ [] := by
      intro hz
      have hlen := congrArg List.length hz
      obtain ⟨c, cs, hsf, -⟩ := strftime_head_digit d
      simp [strData_append, hsf] at hlen
    obtain ⟨rest, hm⟩ := resolve_preserves_core hext htne htnd hcore hres
    have hstarts : strStarts (strftimeCompact d ++ "_A_") m := by
      refine ⟨(get_file_datetime env.meta p.name).2.data ++ (("_" : String).data ++
        ((compute_file_hash env.hashHex).data ++ rest)), ?_⟩
      rw [hm]
      simp only [strData_append, List.append_assoc]
      rfl
    refine ⟨hstarts, ?_⟩
    rintro ⟨t2, ht2⟩
    obtain ⟨tail, htail⟩ := hstarts
    obtain ⟨c, cs, hsf, hdig⟩ := strftime_head_digit d
    have h1 : m.data = c :: (cs ++ (("_A_" : String).data ++ tail)) := by
      rw [htail, strData_append, hsf]
      simp [List.append_assoc]
    have h2 : m.data = 'U' :: (("nknownDate" : String).data ++ t2) := ht2
    have h3 : c :: (cs ++ (("_A_" : String).data ++ tail)) =
        'U' :: (("nknownDate" : String).data ++ t2) := by rw [← h1, h2]
    have hcU : c = 'U' := (List.cons.inj h3).1
    rw [hcU] at hdig
    exact absurd hdig (by decide)
  · intro hdc
    have hnm : rename_new_name p env =
        (("UnknownDate" : String) ++ "_" ++ "C" ++ "_" ++
          (get_file_datetime env.meta p.name).2 ++ "_" ++
          compute_file_hash env.hashHex) ++ strLower (pathSuffix p.name) := by
      simp only [rename_new_name, hdc]
    rw [hnm] at hres
    have hcore : ((("UnknownDate" : String) ++ "_" ++ "C" ++ "_" ++
        (get_file_datetime env.meta p.name).2 ++ "_" ++
        compute_file_hash env.hashHex) : String).data ≠ [] := by
      intro hz
      have hlen := congrArg List.length hz
      simp [strData_append] at hlen
    obtain ⟨rest, hm⟩ := resolve_preserves_core hext htne htnd hcore hres
    refine ⟨(get_file_datetime env.meta p.name).2.data ++ (("_" : String).data ++
      ((compute_file_hash env.hashHex).data ++ rest)), ?_⟩
    rw [hm]
    simp only [strData_append, List.append_assoc]
    rfl
  · intro d c hc
    simp only [strftimeCompact, strData_append, List.append_assoc, List.mem_append] at hc
    rcases hc with hc | hc | hc | hc | hc | hc | hc
    · exact Or.inl (isDigit_of_mem_pad hc)
    · exact Or.inl (isDigit_of_mem_pad hc)
    · exact Or.inl (isDigit_of_mem_pad hc)
    · simp at hc; exact Or.inr hc
    · exact Or.inl (isDigit_of_mem_pad hc)
    · exact Or.inl (isDigit_of_mem_pad hc)
    · exact Or.inl (isDigit_of_mem_pad hc)

/-- C10 (witness). -/
theorem C10_confidence_matches_date_witness :
    strStarts (strftimeCompact ⟨2024, 1, 23, 10, 15, 30⟩ ++ "_A_")
      "20240123_101530_A_Pixel_7_abcd1234_dup1.jpg" ∧
    ¬ strStarts "UnknownDate" "20240123_101530_A_Pixel_7_abcd1234_dup1.jpg" :=
  (C10_confidence_matches_date ⟨["photos"], "20240123_101530_A_Pixel_7_abcd1234.jpg"⟩
    ⟨some "abcd1234abcd1234abcd1234abcd1234",
     ⟨some ⟨some "2024:01:23 10:15:30", none, some "Pixel 7", false⟩, none⟩,
     ["20240123_101530_A_Pixel_7_abcd1234.jpg"], .ok ()⟩ 4
    "20240123_101530_A_Pixel_7_abcd1234_dup1.jpg"
    (by decide) (by rfl)).1 ⟨2024, 1, 23, 10, 15, 30⟩ (by rfl)

/-- C1 (counterexample): the claim says a second `rename` run on an
already-canonically-named, unchanged file is a no-op with no `_dup`
suffix.  In the code, `new_path.exists()` sees the file itself, so the
collision loop fires: a file already named
`20240123_101530_A_Pixel_7_abcd1234.jpg` (same content, same EXIF) is
renamed to `20240123_101530_A_Pixel_7_abcd1234_dup1.jpg`. -/
theorem C1_counterexample :
    rename_new_name ⟨["photos"], "20240123_101530_A_Pixel_7_abcd1234.jpg"⟩
      ⟨some "abcd1234abcd1234abcd1234abcd1234",
       ⟨some ⟨some "2024:01:23 10:15:30", none, some "Pixel 7", false⟩, none⟩,
       ["20240123_101530_A_Pixel_7_abcd1234.jpg"], .ok ()⟩ =
      "20240123_101530_A_Pixel_7_abcd1234.jpg" ∧
    rename_file_worker ⟨["photos"], "20240123_101530_A_Pixel_7_abcd1234.jpg"⟩ false
      ⟨some "abcd1234abcd1234abcd1234abcd1234",
       ⟨some ⟨some "2024:01:23 10:15:30", none, some "Pixel 7", false⟩, none⟩,
       ["20240123_101530_A_Pixel_7_abcd1234.jpg"], .ok ()⟩ 4 =
      some ⟨.ok (some ("Renamed: 20240123_101530_A_Pixel_7_abcd1234.jpg → " ++
                       "20240123_101530_A_Pixel_7_abcd1234_dup1.jpg")),
            [.move ⟨["photos"], "20240123_101530_A_Pixel_7_abcd1234.jpg"⟩
                   ⟨["photos"], "20240123_101530_A_Pixel_7_abcd1234_dup1.jpg"⟩]⟩ ∧
    ("20240123_101530_A_Pixel_7_abcd1234_dup1.jpg" : String) ≠
      "20240123_101530_A_Pixel_7_abcd1234.jpg" :=
  ⟨rfl, rfl, by decide⟩

/-- C1 (amended): for a supported file (whose current name, being the
name of a file that exists on disk, is a valid filename) whose name already equals
its canonical name and which is unchanged, running `rename` again is NOT
a no-op: because the existence check sees the file itself, the worker
renames the file to the first free `<stem>_dup<k>` variant — a name
different from the current one. -/
theorem C1_rename_rerun_adds_dup (p : Path) (env : RenameEnv) (fuel : Nat) (m : String)
    (hsupp : SUPPORTED_EXTENSIONS.contains (strLower (pathSuffix p.name)) = true)
    (hval : validFileName p.name = true)
    (hself : rename_new_name p env = p.name)
    (hmem : env.listing.contains p.name = true)
    (hloop : resolveLoop env.listing (pathStem p.name)
      (strLower (pathSuffix p.name)) fuel 1 = some m)
    (hmv : env.moveResult = .ok ()) :
    rename_file_worker p false env fuel =
      some ⟨.ok (some ("Renamed: " ++ p.name ++ " → " ++ m)), [.move p ⟨p.dir, m⟩]⟩ ∧
    m ≠ p.name ∧
    ∃ k, 1 ≤ k ∧ m = dupName (pathStem p.name) k (strLower (pathSuffix p.name)) := by
  have hres : resolveName env.listing (rename_new_name p env)
      (strLower (pathSuffix p.name)) fuel = some m := by
    unfold resolveName
    rw [hself, if_pos hmem]
    exact hloop
  obtain ⟨k, hk1, hk2, hk3, -⟩ :=
    resolveLoop_spec env.listing (pathStem p.name) _ fuel 1 m hloop
  have hneq : m ≠ p.name := by
    intro he
    rw [he, hmem] at hk3
    exact Bool.noConfusion hk3
  have hval' : validFileName (rename_new_name p env) = true := by
    rw [hself]
    exact hval
  have hworker := @rename_file_worker_eq p env false fuel m hsupp hval' hres
  rw [if_neg (by decide), hmv] at hworker
  exact ⟨hworker, hneq, k, hk1, hk2⟩

/-- C1 (witness for the amended theorem). -/
theorem C1_rename_rerun_adds_dup_witness :
    rename_file_worker ⟨["photos"], "20240123_101530_A_Pixel_7_abcd1234.jpg"⟩ false
      ⟨some "abcd1234abcd1234abcd1234abcd1234",
       ⟨some ⟨some "2024:01:23 10:15:30", none, some "Pixel 7", false⟩, none⟩,
       ["20240123_101530_A_Pixel_7_abcd1234.jpg"], .ok ()⟩ 4 =
      some ⟨.ok (some ("Renamed: " ++ "20240123_101530_A_Pixel_7_abcd1234.jpg" ++
                       " → " ++ "20240123_101530_A_Pixel_7_abcd1234_dup1.jpg")),
            [.move ⟨["photos"], "20240123_101530_A_Pixel_7_abcd1234.jpg"⟩
                   ⟨["photos"], "20240123_101530_A_Pixel_7_abcd1234_dup1.jpg"⟩]⟩ ∧
    ("20240123_101530_A_Pixel_7_abcd1234_dup1.jpg" : String) ≠
      "20240123_101530_A_Pixel_7_abcd1234.jpg" ∧
    ∃ k, 1 ≤ k ∧ ("20240123_101530_A_Pixel_7_abcd1234_dup1.jpg" : String) =
      dupName (pathStem "20240123_101530_A_Pixel_7_abcd1234.jpg") k
        (strLower (pathSuffix "20240123_101530_A_Pixel_7_abcd1234.jpg")) :=
  C1_rename_rerun_adds_dup
    ⟨["photos"], "20240123_101530_A_Pixel_7_abcd1234.jpg"⟩
    ⟨some "abcd1234abcd1234abcd1234abcd1234",
     ⟨some ⟨some "2024:01:23 10:15:30", none, some "Pixel 7", false⟩, none⟩,
     ["20240123_101530_A_Pixel_7_abcd1234.jpg"], .ok ()⟩ 4
    "20240123_101530_A_Pixel_7_abcd1234_dup1.jpg"
    (by decide) (by decide) (by rfl) (by decide) (by rfl) rfl

/-- C2 (counterexample): the claim says any per-file failure — including
filesystem metadata reads — yields exactly one Error outcome and never
aborts the batch.  But `path.stat()` in `organize_file_worker` is
outside the `try` block: when the file has no metadata timestamp and the
stat fails, the exception escapes the worker (no outcome at all for that
file), and `future.result()` re-raises it in the collection loop,
aborting the whole batch so later files' outcomes are lost. -/
theorem C2_counterexample :
    organize_file_worker ⟨["src"], "a.mp4"⟩ ["dest"] false false
      ⟨⟨none, none⟩, .error "stat failed", [], .ok (), .ok (), .ok ()⟩ 4 =
      some ⟨.error "stat failed", []⟩ ∧
    collectOutcomes
      [⟨.error "stat failed", []⟩,
       ⟨.ok (some "Moved: b.jpg → 2023/05/01/b.jpg"), []⟩] =
      .error "stat failed" :=
  ⟨rfl, rfl⟩

/-- C2 (amended): when no worker needs the unguarded `stat` fallback (or
that stat succeeds), every discovered file yields exactly one outcome
and the batch completes: the collection loop returns one collected value
per submitted job.  Failures inside the guarded `try` block — the
mkdir/copy/move — are converted into a single `Error …` outcome for that
file rather than an exception.  (Only a failure of the unguarded
`path.stat()` metadata read escapes and aborts the batch, as the
counterexample shows.) -/
theorem C2_error_isolation :
    (∀ (jobs : List (Path × OrganizeEnv)) (out : List String) (copy : Bool)
       (fuel : Nat) (runs : List WorkerRun),
      jobs.map (fun j => organize_file_worker j.1 out false copy j.2 fuel) =
        runs.map some →
      (∀ j ∈ jobs, (get_file_datetime j.2.meta j.1.name).1.isSome = true ∨
        ∃ d, j.2.statResult = Except.ok d) →
      ∃ msgs, collectOutcomes runs = .ok msgs ∧ msgs.length = jobs.length) ∧
    (∀ (p : Path) (out : List String) (copy : Bool) (env : OrganizeEnv)
       (fuel : Nat) (dt : DateTime) (fn e : String),
      SUPPORTED_EXTENSIONS.contains (strLower (pathSuffix p.name)) = true →
      organize_dtResult env p.name = Except.ok dt →
      resolveName env.targetListing p.name (strLower (pathSuffix p.name)) fuel =
        some fn →
      env.mkdirResult = .ok () →
      (if copy then env.copyResult else env.moveResult) = .error e →
      organize_file_worker p out false copy env fuel =
        some ⟨.ok (some ("Error " ++ (if copy then "copy" else "move") ++ "ing " ++
                         pathStr p ++ ": " ++ e)),
              [.mkdir (out ++ [pad 4 dt.year, pad 2 dt.month, pad 2 dt.day]),
               if copy then
                 FsOp.copy p ⟨out ++ [pad 4 dt.year, pad 2 dt.month, pad 2 dt.day], fn⟩
               else
                 FsOp.move p ⟨out ++ [pad 4 dt.year, pad 2 dt.month, pad 2 dt.day], fn⟩]⟩) := by
  constructor
  · intro jobs out copy fuel
    induction jobs with
    | nil =>
      intro runs hmap _
      cases runs with
      | nil => exact ⟨[], rfl, rfl⟩
      | cons r rs => simp at hmap
    | cons j js ih =>
      intro runs hmap hio
      cases runs with
      | nil => simp at hmap
      | cons r rs =>
        simp only [List.map_cons, List.cons.injEq] at hmap
        obtain ⟨hr, hrest⟩ := hmap
        obtain ⟨msg, hmsg⟩ := organize_worker_result_ok (hio j (by simp)) hr
        obtain ⟨msgs, hms, hlen⟩ := ih rs hrest (fun j' hj' => hio j' (by simp [hj']))
        refine ⟨msg :: msgs, ?_, by simp [hlen]⟩
        unfold collectOutcomes
        rw [hmsg, hms]
        rfl
  · intro p out copy env fuel dt fn e hsupp hdt hres hmk hcr
    rw [organize_file_worker_eq hsupp hdt hres]
    dsimp only
    rw [if_neg (by decide), hmk, hcr]

/-- C2 (witness for the amended theorem): two files — one needing the
stat fallback (which succeeds), one unsupported — both produce a result,
the batch completes with one collected value per file; and a failing
move on a supported file yields a single `Error …` outcome. -/
theorem C2_error_isolation_witness :
    (∃ msgs,
      collectOutcomes
        [⟨.ok (some "Moved: a.jpg → 2023/05/01/a.jpg"),
          [.mkdir ["dest", "2023", "05", "01"],
           .move ⟨["s"], "a.jpg"⟩ ⟨["dest", "2023", "05", "01"], "a.jpg"⟩]⟩,
         ⟨.ok none, []⟩] = .ok msgs ∧ msgs.length = 2) ∧
    organize_file_worker ⟨["s"], "a.jpg"⟩ ["dest"] false false
      ⟨⟨none, none⟩, .ok ⟨2023, 5, 1, 0, 0, 0⟩, [], .ok (), .ok (), .error "disk full"⟩ 3 =
      some ⟨.ok (some ("Error " ++ "move" ++ "ing " ++ pathStr ⟨["s"], "a.jpg"⟩ ++
                       ": " ++ "disk full")),
            [.mkdir (["dest"] ++ [pad 4 2023, pad 2 5, pad 2 1]),
             FsOp.move ⟨["s"], "a.jpg"⟩ ⟨["dest"] ++ [pad 4 2023, pad 2 5, pad 2 1], "a.jpg"⟩]⟩ :=
  ⟨C2_error_isolation.1
    [(⟨["s"], "a.jpg"⟩,
      ⟨⟨none, none⟩, .ok ⟨2023, 5, 1, 0, 0, 0⟩, [], .ok (), .ok (), .ok ()⟩),
     (⟨["s"], "b.txt"⟩,
      ⟨⟨none, none⟩, .ok ⟨2024, 1, 1, 0, 0, 0⟩, [], .ok (), .ok (), .ok ()⟩)]
    ["dest"] false 3
    [⟨.ok (some "Moved: a.jpg → 2023/05/01/a.jpg"),
      [.mkdir ["dest", "2023", "05", "01"],
       .move ⟨["s"], "a.jpg"⟩ ⟨["dest", "2023", "05", "01"], "a.jpg"⟩]⟩,
     ⟨.ok none, []⟩]
    (by rfl)
    (by
      intro j hj
      simp only [List.mem_cons, List.not_mem_nil, or_false] at hj
      rcases hj with rfl | rfl
      · exact Or.inr ⟨⟨2023, 5, 1, 0, 0, 0⟩, rfl⟩
      · exact Or.inr ⟨⟨2024, 1, 1, 0, 0, 0⟩, rfl⟩),
   C2_error_isolation.2 ⟨["s"], "a.jpg"⟩ ["dest"] false
    ⟨⟨none, none⟩, .ok ⟨2023, 5, 1, 0, 0, 0⟩, [], .ok (), .ok (), .error "disk full"⟩ 3
    ⟨2023, 5, 1, 0, 0, 0⟩ "a.jpg" "disk full"
    (by decide) (by rfl) (by rfl) rfl rfl⟩

end Toki
